/-
Verification of the encoding and batching core of ethers-multisend.

The development shallowly embeds the two source layers:
  * `encodeSingle.ts` — the single-intent encoder (`encodeSingle`,
    `encodeErc20Transfer`, `encodeErc721Transfer`, `encodeFunctionCall`);
  * the multi-send layer — `coerceTransactionInput`, `encodePacked`,
    `encodeMultiSend` and the module-transaction selection performed by
    `MultiSender.multiSend`.

Byte strings (hex strings in the source) are modelled as `List Nat` of byte
values; the empty hex string maps to the empty list.  Unsigned 256-bit
quantities are modelled as `Nat` with explicit bounds where the encoders
require them.  The third-party ABI coder consumed by the source (the
"ABI encoder" capability of the spec) is modelled by a small executable
ABI coder covering the types the claims mention: uint256, address, bool,
bytes and string, with the standard head/tail layout for dynamic types.
Function selectors (the first four bytes of the keccak hash of a
signature, produced by the library) are fixed constants.
-/
import Mathlib

/-- Big-endian encoding of a natural number into a fixed number of bytes
(the low `w` bytes of `n`, most significant first).  This models how the
packed and ABI encoders lay out `uintN` values. -/
def beBytes : Nat → Nat → List Nat
  | 0, _ => []
  | w + 1, n => beBytes w (n / 256) ++ [n % 256]

/-- Big-endian interpretation of a byte list as a natural number. -/
def fromBE (bs : List Nat) : Nat := bs.foldl (fun acc b => acc * 256 + b) 0

theorem beBytes_length (w n : Nat) : (beBytes w n).length = w := by
  induction w generalizing n with
  | zero => rfl
  | succ w ih => simp [beBytes, ih]

theorem fromBE_append_singleton (l : List Nat) (b : Nat) :
    fromBE (l ++ [b]) = fromBE l * 256 + b := by
  simp [fromBE, List.foldl_append]

theorem fromBE_beBytes (w n : Nat) (h : n < 256 ^ w) :
    fromBE (beBytes w n) = n := by
  induction w generalizing n with
  | zero =>
    simp [beBytes, fromBE]
    omega
  | succ w ih =>
    have hdiv : n / 256 < 256 ^ w := by
      rw [Nat.div_lt_iff_lt_mul (by omega)]
      calc n < 256 ^ (w + 1) := h
        _ = 256 ^ w * 256 := by ring
    rw [beBytes, fromBE_append_singleton, ih _ hdiv]
    omega

theorem two_pow_256_eq : (2 : Nat) ^ 256 = 256 ^ 32 := by norm_num

/-- Dropping past an appended prefix. -/
theorem drop_append_length {α : Type} (l r : List α) (k : Nat) :
    (l ++ r).drop (l.length + k) = r.drop k := by
  induction l with
  | nil => simp
  | cons a l ih => simp [Nat.succ_add, ih]

/-- Taking exactly an appended prefix of known length. -/
theorem take_append_length {α : Type} (l r : List α) (k : Nat) (h : l.length = k) :
    (l ++ r).take k = l := by
  subst h
  simp

/-- Dropping exactly an appended prefix of known length. -/
theorem drop_append_length_eq {α : Type} (l r : List α) (k : Nat) (h : l.length = k) :
    (l ++ r).drop k = r := by
  subst h
  exact List.drop_left l r

theorem sum_take_le (l : List Nat) (i : Nat) : (l.take i).sum ≤ l.sum := by
  induction l generalizing i with
  | nil => simp
  | cons a l ih =>
    cases i with
    | zero => simp
    | succ i => simpa using ih i

theorem le_sum_of_mem {a : Nat} {l : List Nat} (h : a ∈ l) : a ≤ l.sum := by
  induction l with
  | nil => cases h
  | cons b l ih =>
    rcases List.mem_cons.mp h with h | h
    · subst h; simp
    · have := ih h; simp; omega

/-- ABI parameter types covered by the claims (the `ParamType`s the source
passes to the library's coder). -/
inductive AbiType
  | tUint
  | tAddr
  | tBool
  | tBytes
  | tString
deriving DecidableEq, Repr

/-- ABI argument values: the runtime values the source hands to
`encodeFunctionData`.  Addresses, bytes and strings are byte lists. -/
inductive AbiValue
  | vUint (n : Nat)
  | vAddr (a : List Nat)
  | vBool (b : Bool)
  | vBytes (bs : List Nat)
  | vString (s : List Nat)
deriving DecidableEq, Repr

/-- Dynamic ABI types are encoded in the tail with an offset in the head. -/
def AbiType.isDynamic : AbiType → Bool
  | .tBytes | .tString => true
  | _ => false

def AbiValue.isDynamic : AbiValue → Bool
  | .vBytes _ | .vString _ => true
  | _ => false

/-- Well-typedness of a value against a type, together with the range
conditions under which the library coder does not throw: uints fit in 256
bits and addresses are 20 bytes. -/
def wfValue : AbiValue → AbiType → Bool
  | .vUint n, .tUint => decide (n < 2 ^ 256)
  | .vAddr a, .tAddr => a.length == 20
  | .vBool _, .tBool => true
  | .vBytes _, .tBytes => true
  | .vString _, .tString => true
  | _, _ => false

/-- Pointwise well-typedness of an argument list against a type list. -/
def wfTuple : List AbiValue → List AbiType → Bool
  | [], [] => true
  | v :: vs, t :: ts => wfValue v t && wfTuple vs ts
  | _, _ => false

/-- Canonical default of a parameter type, as produced by
`abiCoder._getCoder(paramType).defaultValue()` in the source
(`defaultValue`): zero for integers, the zero address, false, empty
bytes/string. -/
def defaultValue : AbiType → AbiValue
  | .tUint => .vUint 0
  | .tAddr => .vAddr (List.replicate 20 0)
  | .tBool => .vBool false
  | .tBytes => .vBytes []
  | .tString => .vString []

/-- JavaScript falsiness of the runtime value an `AbiValue` models: the
number 0, `false` and the empty string are falsy; address and bytes values
are non-empty hex strings, hence truthy. -/
def jsFalsyValue : AbiValue → Bool
  | .vUint n => n == 0
  | .vBool b => !b
  | .vString s => s.isEmpty
  | .vAddr _ => false
  | .vBytes _ => false

/-- The source's `tx.inputValues[input.name] || defaultValue(input)`: an
absent or falsy supplied value is replaced by the default. -/
def jsOrDefault (v : Option AbiValue) (d : AbiValue) : AbiValue :=
  match v with
  | none => d
  | some x => if jsFalsyValue x then d else x

/-- The 32-byte head word of a static value (zero-padded to the left). -/
def staticWord : AbiValue → List Nat
  | .vUint n => beBytes 32 n
  | .vBool b => beBytes 32 (if b then 1 else 0)
  | .vAddr a => List.replicate 12 0 ++ a
  | .vBytes _ => []
  | .vString _ => []

/-- Number of zero bytes padding a dynamic payload to a 32-byte boundary. -/
def padLen (n : Nat) : Nat := (32 - n % 32) % 32

/-- Tail encoding of a dynamic value: 32-byte length, payload, padding. -/
def tailEnc : AbiValue → List Nat
  | .vBytes bs => beBytes 32 bs.length ++ bs ++ List.replicate (padLen bs.length) 0
  | .vString s => beBytes 32 s.length ++ s ++ List.replicate (padLen s.length) 0
  | _ => []

/-- Total length of the tail section of an argument list. -/
def tailsLen (vs : List AbiValue) : Nat :=
  (vs.map (fun v => (tailEnc v).length)).sum

/-- Length of the tails of the first `i` arguments: the relative offset of
the i-th dynamic tail within the tail section. -/
def tailsBefore (vs : List AbiValue) (i : Nat) : Nat :=
  tailsLen (vs.take i)

/-- The i-th 32-byte head word of the tuple encoding: the static word for a
static argument, the byte offset of its tail for a dynamic one. -/
def headWord (vs : List AbiValue) (i : Nat) : List Nat :=
  match vs[i]? with
  | none => []
  | some v =>
    if v.isDynamic then beBytes 32 (32 * vs.length + tailsBefore vs i)
    else staticWord v

/-- Standard ABI tuple encoding: the concatenated head words followed by
the concatenated tails.  This models the library's `abiCoder.encode` /
`Interface.encodeFunctionData` argument encoding for the claim-relevant
types. -/
def encodeTuple (vs : List AbiValue) : List Nat :=
  ((List.range vs.length).map (headWord vs)).flatten ++ (vs.map tailEnc).flatten

/-- Decoding of one static 32-byte word. -/
def decodeWord (t : AbiType) (w : List Nat) : AbiValue :=
  match t with
  | .tUint => .vUint (fromBE w)
  | .tAddr => .vAddr (w.drop 12)
  | .tBool => .vBool (fromBE w != 0)
  | .tBytes => .vBytes []
  | .tString => .vString []

/-- Decoding of the i-th argument of an ABI-encoded tuple, following the
offset word for dynamic types.  This models `abiCoder.decode` restricted
to reading one position. -/
def decodeValueAt (ts : List AbiType) (blob : List Nat) (i : Nat) : Option AbiValue :=
  if h : i < ts.length then
    if (ts[i]).isDynamic then
      let off := fromBE ((blob.drop (32 * i)).take 32)
      let len := fromBE ((blob.drop off).take 32)
      let bs := (blob.drop (off + 32)).take len
      some (if ts[i] = .tString then .vString bs else .vBytes bs)
    else
      some (decodeWord (ts[i]) ((blob.drop (32 * i)).take 32))
  else none

theorem wfTuple_length {vs : List AbiValue} {ts : List AbiType}
    (h : wfTuple vs ts = true) : vs.length = ts.length := by
  induction vs generalizing ts with
  | nil =>
    cases ts with
    | nil => rfl
    | cons t ts => simp [wfTuple] at h
  | cons v vs ih =>
    cases ts with
    | nil => simp [wfTuple] at h
    | cons t ts =>
      simp only [wfTuple, Bool.and_eq_true] at h
      simp [ih h.2]

theorem wfTuple_getElem {vs : List AbiValue} {ts : List AbiType}
    (h : wfTuple vs ts = true) (i : Nat) (h1 : i < vs.length) (h2 : i < ts.length) :
    wfValue (vs[i]) (ts[i]) = true := by
  induction vs generalizing ts i with
  | nil => simp at h1
  | cons v vs ih =>
    cases ts with
    | nil => simp [wfTuple] at h
    | cons t ts =>
      simp only [wfTuple, Bool.and_eq_true] at h
      cases i with
      | zero => simpa using h.1
      | succ i =>
        simp only [List.getElem_cons_succ]
        exact ih h.2 i (by simpa using h1) (by simpa using h2)

theorem headWord_eq (vs : List AbiValue) (i : Nat) (hi : i < vs.length) :
    headWord vs i =
      if (vs[i]).isDynamic then beBytes 32 (32 * vs.length + tailsBefore vs i)
      else staticWord (vs[i]) := by
  simp [headWord, List.getElem?_eq_getElem hi]

theorem headWord_length {vs : List AbiValue} {ts : List AbiType}
    (h : wfTuple vs ts = true) (i : Nat) (hi : i < vs.length) :
    (headWord vs i).length = 32 := by
  have h2 : i < ts.length := by rw [← wfTuple_length h]; exact hi
  have hv := wfTuple_getElem h i hi h2
  rw [headWord_eq vs i hi]
  cases hval : vs[i] with
  | vUint n => simp [AbiValue.isDynamic, staticWord, beBytes_length]
  | vBool b => simp [AbiValue.isDynamic, staticWord, beBytes_length]
  | vAddr a =>
    rw [hval] at hv
    have ha : a.length = 20 := by
      cases htv : ts[i] <;> rw [htv] at hv <;> simp [wfValue] at hv
      exact hv
    simp [AbiValue.isDynamic, staticWord, ha]
  | vBytes bs => simp [AbiValue.isDynamic, beBytes_length]
  | vString s => simp [AbiValue.isDynamic, beBytes_length]

theorem sum_map_length_const {α : Type} (L : List (List α)) (c : Nat)
    (h : ∀ l ∈ L, l.length = c) : (L.map List.length).sum = c * L.length := by
  induction L with
  | nil => simp
  | cons l L ih =>
    simp only [List.map_cons, List.sum_cons, List.length_cons]
    rw [h l (by simp), ih (fun x hx => h x (by simp [hx]))]
    ring

theorem flatten_chunks_drop {α : Type} (c : Nat) (L : List (List α)) (R : List α)
    (h : ∀ l ∈ L, l.length = c) :
    ∀ i, i ≤ L.length → (L.flatten ++ R).drop (c * i) = (L.drop i).flatten ++ R := by
  induction L with
  | nil =>
    intro i hi
    have hz : i = 0 := by simpa using hi
    subst hz
    simp
  | cons l L ih =>
    intro i hi
    cases i with
    | zero => simp
    | succ i =>
      have hl : l.length = c := h l (by simp)
      have hc : c * (i + 1) = l.length + c * i := by rw [hl]; ring
      rw [List.flatten_cons, List.append_assoc, hc, drop_append_length]
      simpa using ih (fun x hx => h x (by simp [hx])) i (by simpa using hi)

theorem flatten_drop_sum_take {α : Type} (L : List (List α)) (i : Nat) :
    L.flatten.drop (((L.take i).map List.length).sum) = (L.drop i).flatten := by
  induction L generalizing i with
  | nil => simp
  | cons l L ih =>
    cases i with
    | zero => simp
    | succ i =>
      simp only [List.take_succ_cons, List.map_cons, List.sum_cons,
        List.flatten_cons, List.drop_succ_cons]
      rw [drop_append_length]
      exact ih i

theorem tailsBefore_eq (vs : List AbiValue) (i : Nat) :
    tailsBefore vs i = (((vs.map tailEnc).take i).map List.length).sum := by
  simp [tailsBefore, tailsLen, ← List.map_take, List.map_map]
  rfl

theorem tailsBefore_le (vs : List AbiValue) (i : Nat) :
    tailsBefore vs i ≤ tailsLen vs := by
  rw [tailsBefore_eq]
  have h1 : ((vs.map tailEnc).take i).map List.length
      = ((vs.map tailEnc).map List.length).take i := by
    rw [List.map_take]
  rw [h1]
  have h2 : tailsLen vs = ((vs.map tailEnc).map List.length).sum := by
    simp [tailsLen, List.map_map]
    rfl
  rw [h2]
  exact sum_take_le _ _

theorem heads_flatten_length {vs : List AbiValue} {ts : List AbiType}
    (h : wfTuple vs ts = true) :
    (((List.range vs.length).map (headWord vs)).flatten).length = 32 * vs.length := by
  rw [List.length_flatten, sum_map_length_const _ 32]
  · simp
  · intro l hl
    rcases List.mem_map.mp hl with ⟨j, hj, rfl⟩
    exact headWord_length h j (List.mem_range.mp hj)

/-- Round trip of the modelled ABI coder: reading position `i` of an
encoded tuple recovers the i-th argument, for well-typed arguments whose
encoding fits in 256-bit offsets. -/
theorem decodeValueAt_encodeTuple (vs : List AbiValue) (ts : List AbiType)
    (hwf : wfTuple vs ts = true)
    (hsz : 32 * vs.length + tailsLen vs < 2 ^ 256)
    (i : Nat) (hi : i < vs.length) :
    decodeValueAt ts (encodeTuple vs) i = some (vs[i]) := by
  have hlen := wfTuple_length hwf
  have hi2 : i < ts.length := hlen ▸ hi
  have hv := wfTuple_getElem hwf i hi hi2
  have hhead_mem : ∀ l ∈ (List.range vs.length).map (headWord vs), l.length = 32 := by
    intro l hl
    rcases List.mem_map.mp hl with ⟨j, hj, rfl⟩
    exact headWord_length hwf j (List.mem_range.mp hj)
  have hblob : encodeTuple vs
      = ((List.range vs.length).map (headWord vs)).flatten ++ (vs.map tailEnc).flatten := rfl
  have hdrop : (encodeTuple vs).drop (32 * i)
      = headWord vs i
        ++ ((((List.range vs.length).map (headWord vs)).drop (i + 1)).flatten
            ++ (vs.map tailEnc).flatten) := by
    rw [hblob, flatten_chunks_drop 32 _ _ hhead_mem i (by simp; omega)]
    have hilt : i < ((List.range vs.length).map (headWord vs)).length := by simpa using hi
    rw [List.drop_eq_getElem_cons hilt, List.flatten_cons, List.append_assoc]
    congr 2
    simp
  have hw : ((encodeTuple vs).drop (32 * i)).take 32 = headWord vs i := by
    rw [hdrop]
    exact take_append_length _ _ _ (headWord_length hwf i hi)
  -- the tail section of the blob, reached through the head length
  have hdropTail : ∀ k, (encodeTuple vs).drop (32 * vs.length + k)
      = (vs.map tailEnc).flatten.drop k := by
    intro k
    rw [hblob, ← heads_flatten_length hwf, drop_append_length]
  have hdropTB : (encodeTuple vs).drop (32 * vs.length + tailsBefore vs i)
      = tailEnc (vs[i]) ++ ((vs.map tailEnc).drop (i + 1)).flatten := by
    rw [hdropTail, tailsBefore_eq, flatten_drop_sum_take]
    have hilt : i < (vs.map tailEnc).length := by simpa using hi
    rw [List.drop_eq_getElem_cons hilt, List.flatten_cons]
    congr 2
    simp
  rw [decodeValueAt, dif_pos hi2]
  cases hval : vs[i] with
  | vUint n =>
    rw [hval] at hv
    have ht : ts[i] = .tUint := by
      cases htv : ts[i] <;> rw [htv] at hv <;> simp [wfValue] at hv
    have hn : n < 256 ^ 32 := by
      rw [← two_pow_256_eq]
      rw [ht] at hv
      simpa [wfValue] using hv
    rw [ht]
    simp only [AbiType.isDynamic, if_false, Bool.false_eq_true, ↓reduceIte]
    rw [hw, headWord_eq vs i hi, hval]
    simp [AbiValue.isDynamic, staticWord, decodeWord, fromBE_beBytes 32 n hn]
  | vBool b =>
    rw [hval] at hv
    have ht : ts[i] = .tBool := by
      cases htv : ts[i] <;> rw [htv] at hv <;> simp [wfValue] at hv
    rw [ht]
    simp only [AbiType.isDynamic, Bool.false_eq_true, ↓reduceIte]
    rw [hw, headWord_eq vs i hi, hval]
    cases b with
    | true =>
      simp [AbiValue.isDynamic, staticWord, decodeWord,
        fromBE_beBytes 32 1 (by norm_num)]
    | false =>
      simp [AbiValue.isDynamic, staticWord, decodeWord,
        fromBE_beBytes 32 0 (by norm_num)]
  | vAddr a =>
    rw [hval] at hv
    have ht : ts[i] = .tAddr := by
      cases htv : ts[i] <;> rw [htv] at hv <;> simp [wfValue] at hv
    rw [ht]
    simp only [AbiType.isDynamic, Bool.false_eq_true, ↓reduceIte]
    rw [hw, headWord_eq vs i hi, hval]
    simp only [AbiValue.isDynamic, Bool.false_eq_true, ↓reduceIte, staticWord, decodeWord]
    rw [drop_append_length_eq _ _ 12 (by simp)]
  | vBytes bs =>
    rw [hval] at hv
    have ht : ts[i] = .tBytes := by
      cases htv : ts[i] <;> rw [htv] at hv <;> simp [wfValue] at hv
    have htb : tailsBefore vs i ≤ tailsLen vs := tailsBefore_le vs i
    have hoff : fromBE (((encodeTuple vs).drop (32 * i)).take 32)
        = 32 * vs.length + tailsBefore vs i := by
      rw [hw, headWord_eq vs i hi, hval]
      simp only [AbiValue.isDynamic, ↓reduceIte]
      apply fromBE_beBytes
      rw [← two_pow_256_eq]
      omega
    have hbslen : bs.length < 256 ^ 32 := by
      rw [← two_pow_256_eq]
      have hmem : (tailEnc (vs[i])).length ∈ vs.map (fun v => (tailEnc v).length) := by
        have h1 : vs[i] ∈ vs := List.getElem_mem hi
        simpa using List.mem_map_of_mem (fun v => (tailEnc v).length) h1
      have h2 : (tailEnc (vs[i])).length ≤ tailsLen vs := le_sum_of_mem hmem
      rw [hval] at h2
      simp only [tailEnc, List.length_append, beBytes_length] at h2
      omega
    have hlenEq : fromBE (((encodeTuple vs).drop (32 * vs.length + tailsBefore vs i)).take 32)
        = bs.length := by
      rw [hdropTB, hval]
      simp only [tailEnc, List.append_assoc]
      rw [take_append_length _ _ _ (beBytes_length 32 _)]
      exact fromBE_beBytes 32 bs.length hbslen
    have hdata : ((encodeTuple vs).drop (32 * vs.length + tailsBefore vs i + 32)).take bs.length
        = bs := by
      rw [← List.drop_drop 32 (32 * vs.length + tailsBefore vs i), hdropTB, hval]
      simp only [tailEnc, List.append_assoc]
      rw [drop_append_length_eq (beBytes 32 bs.length) _ 32 (beBytes_length 32 _)]
      rw [take_append_length]
      rfl
    rw [ht]
    simp only [AbiType.isDynamic, ↓reduceIte]
    rw [hoff, hlenEq, hdata]
    simp
  | vString s =>
    rw [hval] at hv
    have ht : ts[i] = .tString := by
      cases htv : ts[i] <;> rw [htv] at hv <;> simp [wfValue] at hv
    have htb : tailsBefore vs i ≤ tailsLen vs := tailsBefore_le vs i
    have hoff : fromBE (((encodeTuple vs).drop (32 * i)).take 32)
        = 32 * vs.length + tailsBefore vs i := by
      rw [hw, headWord_eq vs i hi, hval]
      simp only [AbiValue.isDynamic, ↓reduceIte]
      apply fromBE_beBytes
      rw [← two_pow_256_eq]
      omega
    have hslen : s.length < 256 ^ 32 := by
      rw [← two_pow_256_eq]
      have hmem : (tailEnc (vs[i])).length ∈ vs.map (fun v => (tailEnc v).length) := by
        have h1 : vs[i] ∈ vs := List.getElem_mem hi
        simpa using List.mem_map_of_mem (fun v => (tailEnc v).length) h1
      have h2 : (tailEnc (vs[i])).length ≤ tailsLen vs := le_sum_of_mem hmem
      rw [hval] at h2
      simp only [tailEnc, List.length_append, beBytes_length] at h2
      omega
    have hlenEq : fromBE (((encodeTuple vs).drop (32 * vs.length + tailsBefore vs i)).take 32)
        = s.length := by
      rw [hdropTB, hval]
      simp only [tailEnc, List.append_assoc]
      rw [take_append_length _ _ _ (beBytes_length 32 _)]
      exact fromBE_beBytes 32 s.length hslen
    have hdata : ((encodeTuple vs).drop (32 * vs.length + tailsBefore vs i + 32)).take s.length
        = s := by
      rw [← List.drop_drop 32 (32 * vs.length + tailsBefore vs i), hdropTB, hval]
      simp only [tailEnc, List.append_assoc]
      rw [drop_append_length_eq (beBytes 32 s.length) _ 32 (beBytes_length 32 _)]
      rw [take_append_length]
      rfl
    rw [ht]
    simp only [AbiType.isDynamic, ↓reduceIte]
    rw [hoff, hlenEq, hdata]

/-- Output of the single-intent encoder (`MetaTransaction` in `types.ts`):
a normalized `(to, value, data)` triple. -/
structure MetaTransaction where
  «to» : List Nat
  value : Nat
  data : List Nat
deriving DecidableEq, Repr

/-- One resolved ABI function: its four-byte selector together with its
named, typed input parameters.  This models the source's
`new Interface(tx.abi)` followed by `iface.functions[tx.functionSignature]`
(the consumed ABI capability); the selector is the first four bytes of the
keccak hash of the signature, computed by the library. -/
structure FunctionSig where
  selector : List Nat
  inputs : List (String × AbiType)
deriving DecidableEq, Repr

/-- `TransferFundsTransactionInput`: a null `token` means a native-currency
transfer, a non-null one an ERC20 transfer. -/
structure TransferFundsTransactionInput where
  token : Option (List Nat)
  «to» : List Nat
  amount : Nat
deriving DecidableEq, Repr

/-- `TransferCollectibleTransactionInput`: an ERC721 `safeTransferFrom`
request; `address` is the collectible contract. -/
structure TransferCollectibleTransactionInput where
  address : List Nat
  from_ : List Nat
  «to» : List Nat
  tokenId : Nat
deriving DecidableEq, Repr

/-- `CallContractTransactionInput`: `fn` models the pair
`(tx.abi, tx.functionSignature)` already resolved through the library's
`Interface`; `inputValues` is the name-indexed dictionary of supplied
argument values. -/
structure CallContractTransactionInput where
  «to» : List Nat
  value : Option Nat
  fn : FunctionSig
  inputValues : List (String × AbiValue)
deriving DecidableEq, Repr

/-- `RawTransactionInput`: a raw call with optional value and data. -/
structure RawTransactionInput where
  «to» : List Nat
  value : Option Nat
  data : Option (List Nat)
deriving DecidableEq, Repr

/-- The tagged union `TransactionInput` consumed by `encodeSingle`. -/
inductive TransactionInput
  | transferFunds (tx : TransferFundsTransactionInput)
  | transferCollectible (tx : TransferCollectibleTransactionInput)
  | callContract (tx : CallContractTransactionInput)
  | raw (tx : RawTransactionInput)
deriving DecidableEq, Repr

/-- Selector of `transfer(address,uint256)` (first four bytes of its
keccak hash, as computed by the source's `erc20Interface`). -/
def transferSelector : List Nat := [0xa9, 0x05, 0x9c, 0xbb]

/-- The source's `encodeErc20Transfer`:
`erc20Interface.encodeFunctionData('transfer(address,uint256)', [tx.to, tx.amount])`. -/
def encodeErc20Transfer (tx : TransferFundsTransactionInput) : List Nat :=
  transferSelector ++ encodeTuple [.vAddr tx.to, .vUint tx.amount]

/-- Selector of `safeTransferFrom(address,address,uint256)` (first four
bytes of its keccak hash, as computed by the source's `erc721Interface`). -/
def safeTransferFromSelector : List Nat := [0x42, 0x84, 0x2e, 0x0e]

/-- The source's `encodeErc721Transfer`:
`erc721Interface.encodeFunctionData('safeTransferFrom(address,address,uint256)',
[tx.from, tx.to, tx.tokenId])`. -/
def encodeErc721Transfer (tx : TransferCollectibleTransactionInput) : List Nat :=
  safeTransferFromSelector ++ encodeTuple [.vAddr tx.from_, .vAddr tx.to, .vUint tx.tokenId]

/-- The argument list the source's `encodeFunctionCall` builds:
`iface.functions[tx.functionSignature].inputs.map((input) =>
tx.inputValues[input.name] || defaultValue(input))`. -/
def functionCallValues (tx : CallContractTransactionInput) : List AbiValue :=
  tx.fn.inputs.map (fun input => jsOrDefault (tx.inputValues.lookup input.1) (defaultValue input.2))

/-- The source's `encodeFunctionCall`:
`iface.encodeFunctionData(tx.functionSignature, values)`. -/
def encodeFunctionCall (tx : CallContractTransactionInput) : List Nat :=
  tx.fn.selector ++ encodeTuple (functionCallValues tx)

/-- The source's `encodeSingle`: dispatch on the intent variant.  Optional
string fields follow JavaScript defaulting: `tx.value || '0'` becomes 0 and
`tx.data || '0x'` becomes the empty byte string when absent (a falsy
supplied value denotes the same number/byte string as the default). -/
def encodeSingle : TransactionInput → MetaTransaction
  | .transferFunds tx =>
    match tx.token with
    | none => { «to» := tx.to, value := tx.amount, data := [] }
    | some token => { «to» := token, value := 0, data := encodeErc20Transfer tx }
  | .transferCollectible tx =>
    { «to» := tx.address, value := 0, data := encodeErc721Transfer tx }
  | .callContract tx =>
    { «to» := tx.to, value := tx.value.getD 0, data := encodeFunctionCall tx }
  | .raw tx =>
    { «to» := tx.to, value := tx.value.getD 0, data := tx.data.getD [] }

/-- Call type of a module transaction, `Operation` in `types.ts`. -/
inductive Operation
  | CALL
  | DELEGATE_CALL
deriving DecidableEq, Repr

/-- Numeric value of an `Operation` (`0` for `CALL`, `1` for
`DELEGATE_CALL`), the `uint8` fed to the packed encoder. -/
def Operation.toByte : Operation → Nat
  | .CALL => 0
  | .DELEGATE_CALL => 1

namespace MultiSend

/-- Input of the multi-send layer, as read by `coerceTransactionInput`:
`types.ts` is not part of the sources at hand, so this structure carries
exactly the fields the multi-send code accesses — a required `to` and
optional `operation`, `value` and `data`. -/
structure TransactionInput where
  operation : Option Operation
  «to» : List Nat
  value : Option Nat
  data : Option (List Nat)
deriving DecidableEq, Repr

/-- `ModuleTransaction`: the fields of a Zodiac module transaction,
mirroring the parameters of `execTransactionFromModule`. -/
structure ModuleTransaction where
  operation : Operation
  «to» : List Nat
  value : Nat
  data : List Nat
deriving DecidableEq, Repr

/-- The source's `coerceTransactionInput`: fill the optional fields with
their defaults (`Operation.CALL`, `BigNumber.from(0)`, `'0x'`).  The
JavaScript `||` agrees with `Option.getD` here: `Operation.CALL` is the
falsy 0, a falsy numeric value denotes 0, and a falsy data string denotes
the empty byte string. -/
def coerceTransactionInput (tx : TransactionInput) : ModuleTransaction :=
  { operation := tx.operation.getD .CALL
    «to» := tx.to
    value := tx.value.getD 0
    data := tx.data.getD [] }

/-- The source's `encodePacked`: `pack(['uint8','address','uint256',
'uint256','bytes'], [operation, to, value, hexDataLength(data), data])` on
the coerced transaction.  (The source re-applies the `|| Operation.CALL`
and `|| BigNumber.from(0)` defaults inside `pack`; after the coercion they
are no-ops.) -/
def encodePacked (transactionInput : TransactionInput) : List Nat :=
  let tx := coerceTransactionInput transactionInput
  [tx.operation.toByte] ++ tx.to ++ beBytes 32 tx.value
    ++ beBytes 32 tx.data.length ++ tx.data

/-- The source's `MULTI_SEND_CONTRACT_ADDRESS`
(`0x8D29bE29923b68abfDD21e541b9374737B49cdAD`) as its 20 address bytes. -/
def MULTI_SEND_CONTRACT_ADDRESS : List Nat :=
  [0x8D, 0x29, 0xbE, 0x29, 0x92, 0x3b, 0x68, 0xab, 0xfD, 0xD2,
   0x1e, 0x54, 0x1b, 0x93, 0x74, 0x73, 0x7B, 0x49, 0xcd, 0xAD]

/-- Selector of `multiSend(bytes)` (first four bytes of its keccak hash,
as computed from `MULTI_SEND_ABI`). -/
def multiSendSelector : List Nat := [0x8d, 0x80, 0xff, 0x0a]

/-- The blob of packed records:
`'0x' + transactions.map(encodePacked).map(remove0x).join('')`. -/
def multiSendBlob (transactions : List TransactionInput) : List Nat :=
  (transactions.map encodePacked).flatten

/-- The calldata of the wrapping call:
`multiSendContract.encodeFunctionData('multiSend', [transactionsEncoded])`. -/
def encodeMultiSendData (transactionsEncoded : List Nat) : List Nat :=
  multiSendSelector ++ encodeTuple [.vBytes transactionsEncoded]

/-- The source's `encodeMultiSend`.  The TypeScript default parameter
value for `multiSendContractAddress` is `MULTI_SEND_CONTRACT_ADDRESS`;
here the address is always passed explicitly.  The returned `to` is
`multiSendContractAddress || MULTI_SEND_CONTRACT_ADDRESS`: an empty
(falsy) address string falls back to the default. -/
def encodeMultiSend (transactions : List TransactionInput)
    (multiSendContractAddress : List Nat) : ModuleTransaction :=
  { operation := .DELEGATE_CALL
    «to» := if multiSendContractAddress = [] then MULTI_SEND_CONTRACT_ADDRESS
          else multiSendContractAddress
    value := 0
    data := encodeMultiSendData (multiSendBlob transactions) }

/-- The module transaction computed inside `MultiSender.multiSend`: a
single transaction is not wrapped in a multi-send but coerced directly;
any other list is passed to `encodeMultiSend`. -/
def multiSendModuleTx (transactions : List TransactionInput)
    (multiSendContractAddress : List Nat) : ModuleTransaction :=
  match transactions with
  | [tx] => coerceTransactionInput tx
  | _ => encodeMultiSend transactions multiSendContractAddress

end MultiSend

namespace MultiSend

/-- Well-formedness of one batch entry as far as the packed encoder is
concerned: a 20-byte recipient address and 256-bit value and data length
(the conditions under which `pack` does not throw). -/
def WfPacked (tx : TransactionInput) : Prop :=
  tx.to.length = 20 ∧ (coerceTransactionInput tx).value < 2 ^ 256
    ∧ (coerceTransactionInput tx).data.length < 2 ^ 256

instance (tx : TransactionInput) : Decidable (WfPacked tx) := by
  unfold WfPacked
  infer_instance

/-- Parse one packed record off the front of a byte string, per the layout
documented on `encodePacked`: operation byte, 20 address bytes, 32-byte
value, 32-byte data length, data. -/
def decodeRecord (bs : List Nat) : Option (ModuleTransaction × List Nat) :=
  if 85 ≤ bs.length then
    let len := fromBE ((bs.drop 53).take 32)
    if len + 85 ≤ bs.length then
      some ({ operation := if bs.headD 0 = 1 then .DELEGATE_CALL else .CALL
              «to» := (bs.drop 1).take 20
              value := fromBE ((bs.drop 21).take 32)
              data := (bs.drop 85).take len },
            bs.drop (85 + len))
    else none
  else none

/-- Parse a whole blob into its packed records (`fuel` bounds the number
of records and makes the recursion structural). -/
def decodeBlobAux : Nat → List Nat → Option (List ModuleTransaction)
  | _, [] => some []
  | 0, _ :: _ => none
  | fuel + 1, b :: bs =>
    match decodeRecord (b :: bs) with
    | none => none
    | some (tx, rest) => (decodeBlobAux fuel rest).map (tx :: ·)

/-- Parse a blob of packed records back into module transactions. -/
def decodeBlob (bs : List Nat) : Option (List ModuleTransaction) :=
  decodeBlobAux bs.length bs

theorem decodeRecord_encodePacked (tx : TransactionInput) (rest : List Nat)
    (hwf : WfPacked tx) :
    decodeRecord (encodePacked tx ++ rest) = some (coerceTransactionInput tx, rest) := by
  obtain ⟨h20, hval, hdlen⟩ := hwf
  set ctx := coerceTransactionInput tx with hctx
  have hto : ctx.to.length = 20 := h20
  have henc : encodePacked tx
      = [ctx.operation.toByte] ++ ctx.to ++ beBytes 32 ctx.value
        ++ beBytes 32 ctx.data.length ++ ctx.data := rfl
  have hlen : (encodePacked tx ++ rest).length = 85 + ctx.data.length + rest.length := by
    rw [henc]
    simp [beBytes_length, hto]
    omega
  have hdrop1 : (encodePacked tx ++ rest).drop 1
      = ctx.to ++ (beBytes 32 ctx.value ++ (beBytes 32 ctx.data.length ++ (ctx.data ++ rest))) := by
    rw [henc]
    simp [List.append_assoc]
  have hto20 : ((encodePacked tx ++ rest).drop 1).take 20 = ctx.to := by
    rw [hdrop1]
    exact take_append_length _ _ _ hto
  have hdrop21 : (encodePacked tx ++ rest).drop 21
      = beBytes 32 ctx.value ++ (beBytes 32 ctx.data.length ++ (ctx.data ++ rest)) := by
    have h1 : (21 : Nat) = 1 + 20 := by norm_num
    rw [h1, ← List.drop_drop, hdrop1, drop_append_length_eq _ _ 20 hto]
  have hvalEq : fromBE (((encodePacked tx ++ rest).drop 21).take 32) = ctx.value := by
    rw [hdrop21, take_append_length _ _ _ (beBytes_length 32 _)]
    exact fromBE_beBytes 32 _ (by rw [← two_pow_256_eq]; exact hval)
  have hdrop53 : (encodePacked tx ++ rest).drop 53
      = beBytes 32 ctx.data.length ++ (ctx.data ++ rest) := by
    have h1 : (53 : Nat) = 21 + 32 := by norm_num
    rw [h1, ← List.drop_drop, hdrop21,
      drop_append_length_eq _ _ 32 (beBytes_length 32 _)]
  have hdlenEq : fromBE (((encodePacked tx ++ rest).drop 53).take 32) = ctx.data.length := by
    rw [hdrop53, take_append_length _ _ _ (beBytes_length 32 _)]
    exact fromBE_beBytes 32 _ (by rw [← two_pow_256_eq]; exact hdlen)
  have hdrop85 : (encodePacked tx ++ rest).drop 85 = ctx.data ++ rest := by
    have h1 : (85 : Nat) = 53 + 32 := by norm_num
    rw [h1, ← List.drop_drop, hdrop53,
      drop_append_length_eq _ _ 32 (beBytes_length 32 _)]
  have hdata : ((encodePacked tx ++ rest).drop 85).take ctx.data.length = ctx.data := by
    rw [hdrop85]
    simp
  have hrest : (encodePacked tx ++ rest).drop (85 + ctx.data.length) = rest := by
    rw [← List.drop_drop, hdrop85, drop_append_length_eq _ _ _ rfl]
  have hhead : (encodePacked tx ++ rest).headD 0 = ctx.operation.toByte := by
    rw [henc]
    rfl
  have hop : (if (encodePacked tx ++ rest).headD 0 = 1 then Operation.DELEGATE_CALL
      else Operation.CALL) = ctx.operation := by
    rw [hhead]
    cases ctx.operation <;> simp [Operation.toByte]
  rw [decodeRecord]
  rw [if_pos (by omega)]
  simp only [hdlenEq]
  rw [if_pos (by omega)]
  rw [hop, hto20, hvalEq, hdata, hrest]

theorem multiSendBlob_length_ge (txs : List TransactionInput) :
    txs.length ≤ (multiSendBlob txs).length := by
  induction txs with
  | nil => simp [multiSendBlob]
  | cons t ts ih =>
    have h1 : multiSendBlob (t :: ts) = encodePacked t ++ multiSendBlob ts := by
      simp [multiSendBlob]
    rw [h1]
    simp only [List.length_cons, List.length_append]
    have h2 : 1 ≤ (encodePacked t).length := by
      rw [show encodePacked t
        = [(coerceTransactionInput t).operation.toByte] ++ (coerceTransactionInput t).to
          ++ beBytes 32 (coerceTransactionInput t).value
          ++ beBytes 32 (coerceTransactionInput t).data.length
          ++ (coerceTransactionInput t).data from rfl]
      simp
    omega

theorem decodeBlobAux_multiSendBlob (txs : List TransactionInput) :
    ∀ fuel, txs.length ≤ fuel → (∀ tx ∈ txs, WfPacked tx) →
    decodeBlobAux fuel (multiSendBlob txs) = some (txs.map coerceTransactionInput) := by
  induction txs with
  | nil =>
    intro fuel _ _
    have hempty : multiSendBlob [] = [] := rfl
    rw [hempty]
    cases fuel <;> rfl
  | cons t ts ih =>
    intro fuel hfuel hwf
    cases fuel with
    | zero => simp at hfuel
    | succ fuel =>
      have hsplit : multiSendBlob (t :: ts) = encodePacked t ++ multiSendBlob ts := by
        simp [multiSendBlob]
      have hrec := decodeRecord_encodePacked t (multiSendBlob ts) (hwf t (by simp))
      have hne : encodePacked t ++ multiSendBlob ts ≠ [] := by
        simp [encodePacked]
      obtain ⟨b, bs, hcons⟩ := List.exists_cons_of_ne_nil hne
      rw [hsplit, hcons, decodeBlobAux, ← hcons, hrec]
      have hih := ih fuel (by simpa using hfuel) (fun x hx => hwf x (by simp [hx]))
      simp [hih]

/-- Round trip of the packed multi-send blob: parsing the blob recovers
exactly the coerced transactions, in input order. -/
theorem decodeBlob_multiSendBlob (txs : List TransactionInput)
    (hwf : ∀ tx ∈ txs, WfPacked tx) :
    decodeBlob (multiSendBlob txs) = some (txs.map coerceTransactionInput) :=
  decodeBlobAux_multiSendBlob txs (multiSendBlob txs).length
    (multiSendBlob_length_ge txs) hwf

end MultiSend

theorem defaultValue_eq_of_falsy (v : AbiValue) (t : AbiType)
    (hf : jsFalsyValue v = true) (hwt : wfValue v t = true) : defaultValue t = v := by
  cases v with
  | vUint n =>
    cases t <;> simp [wfValue] at hwt
    simp [jsFalsyValue] at hf
    simp [defaultValue, hf]
  | vAddr a => simp [jsFalsyValue] at hf
  | vBool b =>
    cases t <;> simp [wfValue] at hwt
    simp [jsFalsyValue] at hf
    simp [defaultValue, hf]
  | vBytes bs => simp [jsFalsyValue] at hf
  | vString s =>
    cases t <;> simp [wfValue] at hwt
    simp [jsFalsyValue, List.isEmpty_iff] at hf
    simp [defaultValue, hf]

/-- Claim C5: for every TransferValue intent with a null token,
`encodeSingle` returns exactly the recipient, the amount as value, and
empty calldata. -/
theorem c5_native_transfer (tx : TransferFundsTransactionInput)
    (h : tx.token = none) :
    encodeSingle (.transferFunds tx)
      = { «to» := tx.to, value := tx.amount, data := [] } := by
  simp [encodeSingle, h]

theorem c5_native_transfer_witness :
    encodeSingle (.transferFunds ⟨none, List.replicate 20 3, 42⟩)
      = { «to» := List.replicate 20 3, value := 42, data := [] } :=
  c5_native_transfer ⟨none, List.replicate 20 3, 42⟩ rfl

/-- Claim C8: an empty (falsy) relay-contract address override makes the
batch encoder fall back to the fixed default multi-send address, while a
non-empty override is used verbatim as the returned `to`. -/
theorem c8_relay_address_fallback (txs : List MultiSend.TransactionInput)
    (addr : List Nat) :
    (MultiSend.encodeMultiSend txs []).to = MultiSend.MULTI_SEND_CONTRACT_ADDRESS
    ∧ (addr ≠ [] → (MultiSend.encodeMultiSend txs addr).to = addr) := by
  refine ⟨rfl, fun h => ?_⟩
  simp [MultiSend.encodeMultiSend, h]

theorem c8_relay_address_fallback_witness :
    (MultiSend.encodeMultiSend [] []).to = MultiSend.MULTI_SEND_CONTRACT_ADDRESS
    ∧ (MultiSend.encodeMultiSend [] [7]).to = [7] :=
  ⟨(c8_relay_address_fallback [] [7]).1,
   (c8_relay_address_fallback [] [7]).2 (by decide)⟩

/-- Claim C9: on the empty list `encodeMultiSend` totals without failure:
it returns a delegate call to the relay address with value 0 whose data is
the `multiSend` selector applied to the empty byte string (offset word 32,
length word 0, no payload). -/
theorem c9_empty_batch :
    MultiSend.encodeMultiSend [] MultiSend.MULTI_SEND_CONTRACT_ADDRESS
      = { operation := .DELEGATE_CALL
          «to» := MultiSend.MULTI_SEND_CONTRACT_ADDRESS
          value := 0
          data := MultiSend.multiSendSelector ++ beBytes 32 32 ++ beBytes 32 0 } := by
  decide

/-- Claim C10: the module transaction returned by `encodeMultiSend` always
carries value 0, whatever the values of the batched sub-calls are. -/
theorem c10_outer_value_zero (txs : List MultiSend.TransactionInput)
    (addr : List Nat) :
    (MultiSend.encodeMultiSend txs addr).value = 0 := rfl

/-- Claim C3: a packed record is the concatenation of the operation byte
(0 for a call, 1 for a delegate call), the 20 raw address bytes, the value
and the data length as 32-byte big-endian integers, and the data bytes,
for a total length of 85 plus the data length. -/
theorem c3_packed_record_layout (ti : MultiSend.TransactionInput)
    (h20 : ti.to.length = 20)
    (hv : (MultiSend.coerceTransactionInput ti).value < 2 ^ 256)
    (hd : (MultiSend.coerceTransactionInput ti).data.length < 2 ^ 256) :
    MultiSend.encodePacked ti
      = [(MultiSend.coerceTransactionInput ti).operation.toByte]
        ++ (MultiSend.coerceTransactionInput ti).to
        ++ beBytes 32 (MultiSend.coerceTransactionInput ti).value
        ++ beBytes 32 (MultiSend.coerceTransactionInput ti).data.length
        ++ (MultiSend.coerceTransactionInput ti).data
    ∧ Operation.toByte .CALL = 0 ∧ Operation.toByte .DELEGATE_CALL = 1
    ∧ (MultiSend.coerceTransactionInput ti).to.length = 20
    ∧ (beBytes 32 (MultiSend.coerceTransactionInput ti).value).length = 32
    ∧ fromBE (beBytes 32 (MultiSend.coerceTransactionInput ti).value)
        = (MultiSend.coerceTransactionInput ti).value
    ∧ (beBytes 32 (MultiSend.coerceTransactionInput ti).data.length).length = 32
    ∧ fromBE (beBytes 32 (MultiSend.coerceTransactionInput ti).data.length)
        = (MultiSend.coerceTransactionInput ti).data.length
    ∧ (MultiSend.encodePacked ti).length
        = 85 + (MultiSend.coerceTransactionInput ti).data.length := by
  refine ⟨rfl, rfl, rfl, h20, beBytes_length 32 _,
    fromBE_beBytes 32 _ (by rw [← two_pow_256_eq]; exact hv),
    beBytes_length 32 _,
    fromBE_beBytes 32 _ (by rw [← two_pow_256_eq]; exact hd), ?_⟩
  have henc : MultiSend.encodePacked ti
      = [(MultiSend.coerceTransactionInput ti).operation.toByte]
        ++ (MultiSend.coerceTransactionInput ti).to
        ++ beBytes 32 (MultiSend.coerceTransactionInput ti).value
        ++ beBytes 32 (MultiSend.coerceTransactionInput ti).data.length
        ++ (MultiSend.coerceTransactionInput ti).data := rfl
  have h20c : (MultiSend.coerceTransactionInput ti).to.length = 20 := h20
  rw [henc]
  simp [beBytes_length, h20c]
  omega

theorem c3_packed_record_layout_witness :
    MultiSend.encodePacked ⟨none, List.replicate 20 5, some 9, some [1, 2, 3]⟩
      = [0] ++ List.replicate 20 5 ++ beBytes 32 9 ++ beBytes 32 3 ++ [1, 2, 3]
    ∧ (MultiSend.encodePacked ⟨none, List.replicate 20 5, some 9, some [1, 2, 3]⟩).length
        = 88 := by
  have h := c3_packed_record_layout ⟨none, List.replicate 20 5, some 9, some [1, 2, 3]⟩
    (by decide) (by decide) (by decide)
  exact ⟨h.1, h.2.2.2.2.2.2.2.2⟩

/-- Claim C2: parsing the blob built by the batch encoder recovers, in
input order, exactly the coerced (normalized) transactions: the i-th
record carries the i-th intent's to, value, data and operation (operation
defaulting to CALL, value to 0, data to empty). -/
theorem c2_blob_order_preservation (txs : List MultiSend.TransactionInput)
    (hwf : ∀ tx ∈ txs, MultiSend.WfPacked tx) :
    MultiSend.decodeBlob (MultiSend.multiSendBlob txs)
      = some (txs.map MultiSend.coerceTransactionInput) :=
  MultiSend.decodeBlob_multiSendBlob txs hwf

theorem c2_blob_order_preservation_witness :
    MultiSend.decodeBlob (MultiSend.multiSendBlob
        [⟨none, List.replicate 20 170, some 5, none⟩,
         ⟨some .DELEGATE_CALL, List.replicate 20 187, none, some [18, 52]⟩])
      = some [⟨.CALL, List.replicate 20 170, 5, []⟩,
              ⟨.DELEGATE_CALL, List.replicate 20 187, 0, [18, 52]⟩] := by
  rw [c2_blob_order_preservation
    [⟨none, List.replicate 20 170, some 5, none⟩,
     ⟨some .DELEGATE_CALL, List.replicate 20 187, none, some [18, 52]⟩]
    (by decide)]
  rfl

/-- Claim C4: for a list of two or more intents (in fact for any list) the
batch encoder returns a delegate call to the relay address whose data is
the ABI-encoded `multiSend(bytes)` call on the full record blob — decoding
the sole `bytes` argument of that call recovers the blob exactly. -/
theorem c4_multi_wrap (txs : List MultiSend.TransactionInput) (addr : List Nat)
    (_hlen : 2 ≤ txs.length) (haddr : addr ≠ [])
    (hblob : (MultiSend.multiSendBlob txs).length < 2 ^ 250) :
    (MultiSend.encodeMultiSend txs addr).operation = .DELEGATE_CALL
    ∧ (MultiSend.encodeMultiSend txs addr).to = addr
    ∧ (MultiSend.encodeMultiSend txs addr).data
        = MultiSend.multiSendSelector
          ++ encodeTuple [.vBytes (MultiSend.multiSendBlob txs)]
    ∧ decodeValueAt [.tBytes] ((MultiSend.encodeMultiSend txs addr).data.drop 4) 0
        = some (.vBytes (MultiSend.multiSendBlob txs)) := by
  refine ⟨rfl, by simp [MultiSend.encodeMultiSend, haddr], rfl, ?_⟩
  have hdrop : (MultiSend.encodeMultiSend txs addr).data.drop 4
      = encodeTuple [.vBytes (MultiSend.multiSendBlob txs)] := by
    have h4 : (MultiSend.encodeMultiSend txs addr).data
        = MultiSend.multiSendSelector
          ++ encodeTuple [.vBytes (MultiSend.multiSendBlob txs)] := rfl
    rw [h4]
    exact drop_append_length_eq _ _ 4 rfl
  rw [hdrop]
  have hwt : wfTuple [.vBytes (MultiSend.multiSendBlob txs)] [.tBytes] = true := by
    simp [wfTuple, wfValue]
  have hpad : padLen (MultiSend.multiSendBlob txs).length < 32 :=
    Nat.mod_lt _ (by norm_num)
  have hsz : 32 * ([AbiValue.vBytes (MultiSend.multiSendBlob txs)]).length
      + tailsLen [.vBytes (MultiSend.multiSendBlob txs)] < 2 ^ 256 := by
    have ht : tailsLen [AbiValue.vBytes (MultiSend.multiSendBlob txs)]
        = 32 + (MultiSend.multiSendBlob txs).length
          + padLen (MultiSend.multiSendBlob txs).length := by
      simp [tailsLen, tailEnc, beBytes_length]
      omega
    rw [ht]
    simp only [List.length_singleton]
    have hb : (2 : Nat) ^ 250 + 128 < 2 ^ 256 := by norm_num
    omega
  have h := decodeValueAt_encodeTuple [.vBytes (MultiSend.multiSendBlob txs)]
    [.tBytes] hwt hsz 0 (by norm_num)
  simpa using h

theorem c4_multi_wrap_witness :
    (MultiSend.encodeMultiSend
        [⟨none, List.replicate 20 170, some 5, none⟩,
         ⟨none, List.replicate 20 187, none, some [18, 52]⟩] [9]).operation
      = .DELEGATE_CALL
    ∧ (MultiSend.encodeMultiSend
        [⟨none, List.replicate 20 170, some 5, none⟩,
         ⟨none, List.replicate 20 187, none, some [18, 52]⟩] [9]).to = [9]
    ∧ decodeValueAt [.tBytes]
        ((MultiSend.encodeMultiSend
          [⟨none, List.replicate 20 170, some 5, none⟩,
           ⟨none, List.replicate 20 187, none, some [18, 52]⟩] [9]).data.drop 4) 0
      = some (.vBytes (MultiSend.multiSendBlob
          [⟨none, List.replicate 20 170, some 5, none⟩,
           ⟨none, List.replicate 20 187, none, some [18, 52]⟩])) := by
  have h := c4_multi_wrap
    [⟨none, List.replicate 20 170, some 5, none⟩,
     ⟨none, List.replicate 20 187, none, some [18, 52]⟩] [9]
    (by decide) (by decide) (by set_option maxRecDepth 4000 in decide)
  exact ⟨h.1, h.2.1, h.2.2.2⟩

/-- Claim C6: for every TransferValue intent with a non-null token,
`encodeSingle` targets the token with value 0, and decoding the calldata
against `transfer(address,uint256)` recovers exactly the recipient and the
amount. -/
theorem c6_erc20_roundtrip (tx : TransferFundsTransactionInput)
    (token : List Nat) (htok : tx.token = some token)
    (h20 : tx.to.length = 20) (hamt : tx.amount < 2 ^ 256) :
    (encodeSingle (.transferFunds tx)).to = token
    ∧ (encodeSingle (.transferFunds tx)).value = 0
    ∧ decodeValueAt [.tAddr, .tUint] ((encodeSingle (.transferFunds tx)).data.drop 4) 0
        = some (.vAddr tx.to)
    ∧ decodeValueAt [.tAddr, .tUint] ((encodeSingle (.transferFunds tx)).data.drop 4) 1
        = some (.vUint tx.amount) := by
  have henc : encodeSingle (.transferFunds tx)
      = { «to» := token, value := 0, data := encodeErc20Transfer tx } := by
    simp [encodeSingle, htok]
  have hdrop : (encodeSingle (.transferFunds tx)).data.drop 4
      = encodeTuple [.vAddr tx.to, .vUint tx.amount] := by
    rw [henc]
    show (transferSelector ++ _).drop 4 = _
    exact drop_append_length_eq _ _ 4 rfl
  have hwt : wfTuple [.vAddr tx.to, .vUint tx.amount] [.tAddr, .tUint] = true := by
    simp only [wfTuple, wfValue, Bool.and_eq_true, beq_iff_eq, decide_eq_true_eq, and_true]
    exact ⟨h20, hamt⟩
  have hsz : 32 * ([AbiValue.vAddr tx.to, AbiValue.vUint tx.amount]).length
      + tailsLen [.vAddr tx.to, .vUint tx.amount] < 2 ^ 256 := by
    have hz : tailsLen [AbiValue.vAddr tx.to, AbiValue.vUint tx.amount] = 0 := rfl
    rw [hz]
    norm_num
  have h0 := decodeValueAt_encodeTuple [.vAddr tx.to, .vUint tx.amount]
    [.tAddr, .tUint] hwt hsz 0 (by norm_num)
  have h1 := decodeValueAt_encodeTuple [.vAddr tx.to, .vUint tx.amount]
    [.tAddr, .tUint] hwt hsz 1 (by norm_num)
  refine ⟨by rw [henc], by rw [henc], ?_, ?_⟩
  · rw [hdrop]
    simpa using h0
  · rw [hdrop]
    simpa using h1

theorem c6_erc20_roundtrip_witness :
    (encodeSingle (.transferFunds ⟨some (List.replicate 20 1), List.replicate 20 2, 1000⟩)).to
      = List.replicate 20 1
    ∧ (encodeSingle (.transferFunds ⟨some (List.replicate 20 1), List.replicate 20 2, 1000⟩)).value
      = 0
    ∧ decodeValueAt [.tAddr, .tUint]
        ((encodeSingle (.transferFunds
          ⟨some (List.replicate 20 1), List.replicate 20 2, 1000⟩)).data.drop 4) 0
      = some (.vAddr (List.replicate 20 2))
    ∧ decodeValueAt [.tAddr, .tUint]
        ((encodeSingle (.transferFunds
          ⟨some (List.replicate 20 1), List.replicate 20 2, 1000⟩)).data.drop 4) 1
      = some (.vUint 1000) :=
  c6_erc20_roundtrip ⟨some (List.replicate 20 1), List.replicate 20 2, 1000⟩
    (List.replicate 20 1) rfl (by decide) (by decide)

/-- Claim C1 (counterexample): on a one-element list the exported batch
encoder `encodeMultiSend` does NOT return the element's own normalized
call: it returns a relay-wrapped delegate call to the multi-send contract. -/
theorem c1_counterexample :
    (MultiSend.encodeMultiSend [⟨none, List.replicate 20 170, some 1, none⟩]
        MultiSend.MULTI_SEND_CONTRACT_ADDRESS).operation = .DELEGATE_CALL
    ∧ (MultiSend.encodeMultiSend [⟨none, List.replicate 20 170, some 1, none⟩]
        MultiSend.MULTI_SEND_CONTRACT_ADDRESS).to = MultiSend.MULTI_SEND_CONTRACT_ADDRESS
    ∧ MultiSend.encodeMultiSend [⟨none, List.replicate 20 170, some 1, none⟩]
        MultiSend.MULTI_SEND_CONTRACT_ADDRESS
      ≠ MultiSend.coerceTransactionInput ⟨none, List.replicate 20 170, some 1, none⟩ := by
  refine ⟨rfl, rfl, ?_⟩
  decide

/-- Claim C1 (amended): only the dispatcher `MultiSender.multiSend` skips
the relay wrapping for a one-element list; its module transaction is the
coercion of the element itself — the element's own to, value and data with
its declared operation defaulting to CALL — and its target differs from
the relay-wrapped call's target whenever the element does not itself
address the relay contract. -/
theorem c1_single_passthrough (x : MultiSend.TransactionInput) (addr : List Nat)
    (h : x.to ≠ (MultiSend.encodeMultiSend [x] addr).to) :
    MultiSend.multiSendModuleTx [x] addr = MultiSend.coerceTransactionInput x
    ∧ (MultiSend.multiSendModuleTx [x] addr).operation = x.operation.getD .CALL
    ∧ (MultiSend.multiSendModuleTx [x] addr).to ≠ (MultiSend.encodeMultiSend [x] addr).to := by
  exact ⟨rfl, rfl, h⟩

theorem c1_single_passthrough_witness :
    MultiSend.multiSendModuleTx [⟨none, List.replicate 20 170, some 1, none⟩]
        MultiSend.MULTI_SEND_CONTRACT_ADDRESS
      = MultiSend.coerceTransactionInput ⟨none, List.replicate 20 170, some 1, none⟩
    ∧ (MultiSend.multiSendModuleTx [⟨none, List.replicate 20 170, some 1, none⟩]
        MultiSend.MULTI_SEND_CONTRACT_ADDRESS).operation = .CALL
    ∧ (MultiSend.multiSendModuleTx [⟨none, List.replicate 20 170, some 1, none⟩]
        MultiSend.MULTI_SEND_CONTRACT_ADDRESS).to
      ≠ (MultiSend.encodeMultiSend [⟨none, List.replicate 20 170, some 1, none⟩]
        MultiSend.MULTI_SEND_CONTRACT_ADDRESS).to :=
  c1_single_passthrough ⟨none, List.replicate 20 170, some 1, none⟩
    MultiSend.MULTI_SEND_CONTRACT_ADDRESS (by decide)

/-- Claim C7: in a contract-call intent, a declared input parameter with
no supplied value is encoded at its position as the parameter type's
canonical zero value, while a supplied (well-typed) parameter decodes back
to its supplied value. -/
theorem c7_missing_param_default (tx : CallContractTransactionInput)
    (i : Nat) (hi : i < tx.fn.inputs.length) (nm : String) (ty : AbiType)
    (hparam : tx.fn.inputs[i] = (nm, ty))
    (hwt : wfTuple (functionCallValues tx) (tx.fn.inputs.map Prod.snd) = true)
    (hsz : 32 * (functionCallValues tx).length + tailsLen (functionCallValues tx) < 2 ^ 256) :
    (tx.inputValues.lookup nm = none →
      decodeValueAt (tx.fn.inputs.map Prod.snd)
          ((encodeSingle (.callContract tx)).data.drop tx.fn.selector.length) i
        = some (defaultValue ty))
    ∧ (∀ v, tx.inputValues.lookup nm = some v → wfValue v ty = true →
      decodeValueAt (tx.fn.inputs.map Prod.snd)
          ((encodeSingle (.callContract tx)).data.drop tx.fn.selector.length) i
        = some v) := by
  have hdrop : (encodeSingle (.callContract tx)).data.drop tx.fn.selector.length
      = encodeTuple (functionCallValues tx) := by
    show (encodeFunctionCall tx).drop tx.fn.selector.length = _
    show (tx.fn.selector ++ encodeTuple (functionCallValues tx)).drop tx.fn.selector.length = _
    exact drop_append_length_eq _ _ _ rfl
  have hlenv : i < (functionCallValues tx).length := by
    simpa [functionCallValues] using hi
  have hmain := decodeValueAt_encodeTuple (functionCallValues tx)
    (tx.fn.inputs.map Prod.snd) hwt hsz i hlenv
  have hvi : (functionCallValues tx)[i]
      = jsOrDefault (tx.inputValues.lookup nm) (defaultValue ty) := by
    simp [functionCallValues, hparam]
  constructor
  · intro hnone
    rw [hdrop, hmain, hvi, hnone]
    rfl
  · intro v hv hwfv
    rw [hdrop, hmain, hvi, hv]
    show some (if jsFalsyValue v then defaultValue ty else v) = some v
    by_cases hf : jsFalsyValue v
    · rw [if_pos hf, defaultValue_eq_of_falsy v ty hf hwfv]
    · rw [if_neg hf]

theorem c7_missing_param_default_witness :
    decodeValueAt [.tUint, .tBytes]
        ((encodeSingle (.callContract
          ⟨List.replicate 20 1, none, ⟨[1, 2, 3, 4], [("a", .tUint), ("b", .tBytes)]⟩,
           [("b", .vBytes [7, 8])]⟩)).data.drop 4) 0
      = some (.vUint 0)
    ∧ decodeValueAt [.tUint, .tBytes]
        ((encodeSingle (.callContract
          ⟨List.replicate 20 1, none, ⟨[1, 2, 3, 4], [("a", .tUint), ("b", .tBytes)]⟩,
           [("b", .vBytes [7, 8])]⟩)).data.drop 4) 1
      = some (.vBytes [7, 8]) := by
  have h0 := c7_missing_param_default
    ⟨List.replicate 20 1, none, ⟨[1, 2, 3, 4], [("a", .tUint), ("b", .tBytes)]⟩,
     [("b", .vBytes [7, 8])]⟩ 0 (by decide) "a" .tUint (by decide) (by decide) (by decide)
  have h1 := c7_missing_param_default
    ⟨List.replicate 20 1, none, ⟨[1, 2, 3, 4], [("a", .tUint), ("b", .tBytes)]⟩,
     [("b", .vBytes [7, 8])]⟩ 1 (by decide) "b" .tBytes (by decide) (by decide) (by decide)
  exact ⟨h0.1 (by decide), h1.2 (.vBytes [7, 8]) (by decide) (by decide)⟩
